import Mathlib

/-!
Verification of the Ace Attorney pairing generator (src/assets/main.js).

The roster is a list of character records; the selector filters it by tag
and gender and draws random members under duplicate-avoidance rules.
Randomness is modelled by an explicit stream of natural numbers, one per
call to Math.random(): the JS draw floor(random * length) is modelled as
the stream value taken modulo the array length, which realizes exactly the
indices the JS code can produce.  The do-while redraw loops are modelled
with explicit fuel; exhausting the fuel yields a distinguished timeout
result, so non-termination of the source loop is observable as timeout at
every fuel.
-/

/-- A character record, as loaded from characters.json and consumed by
main.js: characterId groups visual variants of one underlying character,
image is the unique key of one variant. -/
structure Character where
  characterId : Nat
  image : String
  name : String
  gender : String
  tags : List String
deriving DecidableEq, Inhabited

/-- The pairing-mode constants of main.js (the MODES object). -/
structure Modes where
  NORMAL : String
  MM : String
  FF : String

def MODES : Modes := { NORMAL := "hetero", MM := "homo-male", FF := "homo-female" }

/-- getCharsByTag from main.js: the full roster for a null tag, otherwise
the characters whose tags include the tag, in roster order. -/
def getCharsByTag (characters : List Character) (tag : Option String := none) :
    List Character :=
  match tag with
  | none => characters
  | some t => characters.filter (fun char => char.tags.contains t)

/-- getRandomChar from main.js: charArray[floor(random * length)].  The
random draw is a natural number n, interpreted as the index n mod length;
all call sites in main.js guard against the empty array, so the default
value is never produced there. -/
def getRandomChar (charArray : List Character) (n : Nat) : Character :=
  charArray.getD (n % charArray.length) default

/-- A pairing result of getPairing, one shape per mode. -/
inductive Pairing where
  | hetero (male female : Character)
  | mm (male1 male2 : Character)
  | ff (female1 female2 : Character)
deriving DecidableEq

/-- Outcome of one run of getPairing at a given fuel: null models the JS
null return, timeout models a do-while loop still running when the fuel
runs out. -/
inductive RunResult where
  | timeout
  | null
  | ret (p : Pairing)
deriving DecidableEq

/-- The do-while redraw loops of main.js: draw a character, repeat while
the reject condition holds.  start indexes the random stream, fuel bounds
the number of draws. -/
def redrawLoop (arr : List Character) (reject : Character → Bool)
    (ρ : Nat → Nat) (start : Nat) : Nat → Option Character
  | 0 => none
  | fuel + 1 =>
    if reject (getRandomChar arr (ρ start)) then
      redrawLoop arr reject ρ (start + 1) fuel
    else
      some (getRandomChar arr (ρ start))

/-- Lines 61-62 of main.js: the subgroup "all" maps to the null tag (full
roster), anything else is used as a tag filter. -/
def subgroupChars (characters : List Character) (subgroup : String) :
    List Character :=
  getCharsByTag characters (if subgroup = "all" then none else some subgroup)

/-- The male partition filter of main.js (lines 65, 92). -/
def malesOf (l : List Character) : List Character :=
  l.filter (fun c => c.gender == "male")

/-- The female partition filter of main.js (lines 66, 114). -/
def femalesOf (l : List Character) : List Character :=
  l.filter (fun c => c.gender == "female")

/-- getPairing from main.js.  The stream ρ supplies one random number per
getRandomChar call (index 0 for the first draw, indices 1, 2, ... for the
redraw loop); fuel bounds the redraw loops, with timeout when it runs out. -/
def getPairing (characters : List Character) (ρ : Nat → Nat) (fuel : Nat)
    (subgroup : String) (mode : String := MODES.NORMAL) : RunResult :=
  if mode = MODES.NORMAL then
    let males := malesOf (subgroupChars characters subgroup)
    let females := femalesOf (subgroupChars characters subgroup)
    if males.length = 0 ∨ females.length = 0 then
      .null
    else
      let male := getRandomChar males (ρ 0)
      if subgroup = "all" ∨ subgroup = "game" then
        match redrawLoop females
            (fun female => female.characterId == male.characterId) ρ 1 fuel with
        | some female => .ret (.hetero male female)
        | none => .timeout
      else
        .ret (.hetero male (getRandomChar females (ρ 1)))
  else if mode = MODES.MM then
    let males := malesOf (subgroupChars characters subgroup)
    if males.length < 2 then
      .null
    else
      let male1 := getRandomChar males (ρ 0)
      match redrawLoop males
          (fun male2 => male2.image == male1.image ||
            ((subgroup == "all" || subgroup == "game") &&
              male2.characterId == male1.characterId)) ρ 1 fuel with
      | some male2 => .ret (.mm male1 male2)
      | none => .timeout
  else if mode = MODES.FF then
    let females := femalesOf (subgroupChars characters subgroup)
    if females.length < 2 then
      .null
    else
      let female1 := getRandomChar females (ρ 0)
      match redrawLoop females
          (fun female2 => female2.image == female1.image ||
            ((subgroup == "all" || subgroup == "game") &&
              female2.characterId == female1.characterId)) ρ 1 fuel with
      | some female2 => .ret (.ff female1 female2)
      | none => .timeout
  else
    .null

/-- The two characters of a pairing have distinct characterId values. -/
def pairCharacterIdsDistinct : Pairing → Prop
  | .hetero male female => male.characterId ≠ female.characterId
  | .mm male1 male2 => male1.characterId ≠ male2.characterId
  | .ff female1 female2 => female1.characterId ≠ female2.characterId

/-- The two characters of a pairing have distinct image values. -/
def pairImagesDistinct : Pairing → Prop
  | .hetero male female => male.image ≠ female.image
  | .mm male1 male2 => male1.image ≠ male2.image
  | .ff female1 female2 => female1.image ≠ female2.image

/-- The characters occurring in a pairing, as a list. -/
def pairMembers : Pairing → List Character
  | .hetero male female => [male, female]
  | .mm male1 male2 => [male1, male2]
  | .ff female1 female2 => [female1, female2]

/-- A random stream is fair for an array length when every index below the
length is realized at or after every position of the stream. -/
def Fair (ρ : Nat → Nat) (len : Nat) : Prop :=
  ∀ i, i < len → ∀ N, ∃ k, N ≤ k ∧ ρ k % len = i

/-! ## Basic lemmas about the draws and the redraw loop -/

theorem getRandomChar_eq_getElem (arr : List Character) (n : Nat)
    (h : 0 < arr.length) :
    getRandomChar arr n = arr.get ⟨n % arr.length, Nat.mod_lt _ h⟩ := by
  rw [getRandomChar, List.getD_eq_getElem?_getD, List.get_eq_getElem,
    List.getElem?_eq_getElem (Nat.mod_lt _ h), Option.getD_some]

theorem getRandomChar_mem (arr : List Character) (n : Nat)
    (h : 0 < arr.length) : getRandomChar arr n ∈ arr := by
  rw [getRandomChar_eq_getElem arr n h, List.get_eq_getElem]
  exact List.getElem_mem _

theorem redrawLoop_mem (arr : List Character) (reject : Character → Bool)
    (ρ : Nat → Nat) (start fuel : Nat) (c : Character) (h : 0 < arr.length)
    (hl : redrawLoop arr reject ρ start fuel = some c) : c ∈ arr := by
  induction fuel generalizing start with
  | zero => simp [redrawLoop] at hl
  | succ n ih =>
    rw [redrawLoop] at hl
    split at hl
    · exact ih _ hl
    · cases hl
      exact getRandomChar_mem arr _ h

theorem redrawLoop_not_reject (arr : List Character)
    (reject : Character → Bool) (ρ : Nat → Nat) (start fuel : Nat)
    (c : Character) (hl : redrawLoop arr reject ρ start fuel = some c) :
    reject c = false := by
  induction fuel generalizing start with
  | zero => simp [redrawLoop] at hl
  | succ n ih =>
    rw [redrawLoop] at hl
    split at hl
    · exact ih _ hl
    · rename_i hrej
      cases hl
      exact Bool.not_eq_true _ ▸ hrej

theorem redrawLoop_none_of_all_reject (arr : List Character)
    (reject : Character → Bool) (ρ : Nat → Nat)
    (hall : ∀ x ∈ arr, reject x = true) (h : 0 < arr.length) :
    ∀ fuel start, redrawLoop arr reject ρ start fuel = none := by
  intro fuel
  induction fuel with
  | zero => intro start; rfl
  | succ n ih =>
    intro start
    rw [redrawLoop, if_pos (hall _ (getRandomChar_mem arr _ h))]
    exact ih _

theorem redrawLoop_some_of_good (arr : List Character)
    (reject : Character → Bool) (ρ : Nat → Nat) :
    ∀ n start, reject (getRandomChar arr (ρ (start + n))) = false →
    ∃ fuel c, redrawLoop arr reject ρ start fuel = some c := by
  intro n
  induction n with
  | zero =>
    intro start hgood
    rw [Nat.add_zero] at hgood
    exact ⟨1, getRandomChar arr (ρ start), by rw [redrawLoop, if_neg (by simp [hgood])]⟩
  | succ m ih =>
    intro start hgood
    by_cases h0 : reject (getRandomChar arr (ρ start)) = true
    · have hshift : start + (m + 1) = (start + 1) + m := by omega
      rw [hshift] at hgood
      obtain ⟨fuel, c, hc⟩ := ih (start + 1) hgood
      exact ⟨fuel + 1, c, by rw [redrawLoop, if_pos h0]; exact hc⟩
    · exact ⟨1, getRandomChar arr (ρ start),
        by rw [redrawLoop, if_neg h0]⟩

theorem mem_malesOf (l : List Character) (c : Character) (h : c ∈ malesOf l) :
    c ∈ l ∧ c.gender = "male" := by
  rw [malesOf, List.mem_filter] at h
  exact ⟨h.1, by simpa using h.2⟩

theorem mem_femalesOf (l : List Character) (c : Character)
    (h : c ∈ femalesOf l) : c ∈ l ∧ c.gender = "female" := by
  rw [femalesOf, List.mem_filter] at h
  exact ⟨h.1, by simpa using h.2⟩

/-! ## Claim theorems -/

/-- C4: getCharsByTag with a null tag returns the whole roster; with a tag
it returns exactly the characters whose tag set contains it, in roster
(insertion) order, hence a sublist of the roster; an unmatched tag yields
the empty list and no error. -/
theorem getCharsByTag_filter_spec (characters : List Character) (tag : String) :
    getCharsByTag characters none = characters ∧
    getCharsByTag characters (some tag) =
      characters.filter (fun c => decide (tag ∈ c.tags)) ∧
    (∀ c, c ∈ getCharsByTag characters (some tag) ↔
      c ∈ characters ∧ tag ∈ c.tags) ∧
    (getCharsByTag characters (some tag)).Sublist characters ∧
    ((∀ c ∈ characters, tag ∉ c.tags) → getCharsByTag characters (some tag) = []) := by
  refine ⟨rfl, ?_, ?_, ?_, ?_⟩
  · rw [getCharsByTag]
    exact List.filter_congr (fun c _ => by simp)
  · intro c
    simp [getCharsByTag, List.mem_filter]
  · exact List.filter_sublist _
  · intro hnone
    rw [getCharsByTag]
    rw [List.filter_eq_nil_iff]
    intro c hc
    simpa using hnone c hc

/-- The Phoenix record of the spec's worked example. -/
def phoenix : Character :=
  { characterId := 1, image := "phoenix1", name := "Phoenix",
    gender := "male", tags := ["pw1", "game"] }

/-- The Maya record of the spec's worked example. -/
def maya : Character :=
  { characterId := 2, image := "maya1", name := "Maya",
    gender := "female", tags := ["pw1", "game"] }

/-- The two-character roster of the spec's worked example. -/
def exampleRoster : List Character := [phoenix, maya]

/-- C4 witness: the spec of getCharsByTag instantiated on the concrete
two-character example roster and the tag pw1. -/
theorem getCharsByTag_filter_spec_witness :
    getCharsByTag exampleRoster none = exampleRoster ∧
    getCharsByTag exampleRoster (some "pw1") =
      exampleRoster.filter (fun c => decide ("pw1" ∈ c.tags)) ∧
    (∀ c, c ∈ getCharsByTag exampleRoster (some "pw1") ↔
      c ∈ exampleRoster ∧ "pw1" ∈ c.tags) ∧
    (getCharsByTag exampleRoster (some "pw1")).Sublist exampleRoster ∧
    ((∀ c ∈ exampleRoster, "pw1" ∉ c.tags) →
      getCharsByTag exampleRoster (some "pw1") = []) :=
  getCharsByTag_filter_spec exampleRoster "pw1"

/-- C8: on the Phoenix/Maya roster, getPairing with subgroup pw1 in
opposite-gender mode returns Phoenix as the male and Maya as the female,
for every random stream and every fuel: each gender partition is a
singleton and pw1 triggers no characterId redraw loop. -/
theorem getPairing_example_phoenix_maya (ρ : Nat → Nat) (fuel : Nat) :
    getPairing exampleRoster ρ fuel "pw1" MODES.NORMAL =
      .ret (.hetero phoenix maya) := by
  simp [getPairing, MODES, subgroupChars, getCharsByTag, malesOf, femalesOf,
    exampleRoster, phoenix, maya, getRandomChar, Nat.mod_one]

/-- C8 witness: the Phoenix/Maya run instantiated on the constant-zero
stream with zero fuel (the pw1 branch draws directly, without the loop). -/
theorem getPairing_example_phoenix_maya_witness :
    getPairing exampleRoster (fun _ => 0) 0 "pw1" MODES.NORMAL =
      .ret (.hetero phoenix maya) :=
  getPairing_example_phoenix_maya (fun _ => 0) 0

/-! ## Inversion lemmas: what a returned pairing tells about each branch -/

theorem getPairing_normal_ret (characters : List Character) (ρ : Nat → Nat)
    (fuel : Nat) (subgroup : String) (p : Pairing)
    (h : getPairing characters ρ fuel subgroup MODES.NORMAL = .ret p) :
    ∃ male female,
      p = .hetero male female ∧
      male = getRandomChar (malesOf (subgroupChars characters subgroup)) (ρ 0) ∧
      0 < (malesOf (subgroupChars characters subgroup)).length ∧
      0 < (femalesOf (subgroupChars characters subgroup)).length ∧
      female ∈ femalesOf (subgroupChars characters subgroup) ∧
      ((subgroup = "all" ∨ subgroup = "game") →
        (female.characterId == male.characterId) = false) := by
  rw [getPairing, if_pos rfl] at h
  simp only [] at h
  by_cases hlen : (malesOf (subgroupChars characters subgroup)).length = 0 ∨
      (femalesOf (subgroupChars characters subgroup)).length = 0
  · rw [if_pos hlen] at h
    exact RunResult.noConfusion h
  · rw [if_neg hlen] at h
    push_neg at hlen
    have hm : 0 < (malesOf (subgroupChars characters subgroup)).length :=
      Nat.pos_of_ne_zero hlen.1
    have hf : 0 < (femalesOf (subgroupChars characters subgroup)).length :=
      Nat.pos_of_ne_zero hlen.2
    by_cases hsub : subgroup = "all" ∨ subgroup = "game"
    · rw [if_pos hsub] at h
      split at h
      · rename_i female hloop
        injection h with h
        subst h
        refine ⟨_, female, rfl, rfl, hm, hf,
          redrawLoop_mem _ _ _ _ _ _ hf hloop, fun _ => ?_⟩
        simpa using redrawLoop_not_reject _ _ _ _ _ _ hloop
      · exact RunResult.noConfusion h
    · rw [if_neg hsub] at h
      injection h with h
      subst h
      exact ⟨_, _, rfl, rfl, hm, hf, getRandomChar_mem _ _ hf,
        fun hs => absurd hs hsub⟩

theorem getPairing_mm_ret (characters : List Character) (ρ : Nat → Nat)
    (fuel : Nat) (subgroup : String) (p : Pairing)
    (h : getPairing characters ρ fuel subgroup MODES.MM = .ret p) :
    ∃ male1 male2,
      p = .mm male1 male2 ∧
      male1 = getRandomChar (malesOf (subgroupChars characters subgroup)) (ρ 0) ∧
      2 ≤ (malesOf (subgroupChars characters subgroup)).length ∧
      male2 ∈ malesOf (subgroupChars characters subgroup) ∧
      (male2.image == male1.image ||
        ((subgroup == "all" || subgroup == "game") &&
          male2.characterId == male1.characterId)) = false := by
  rw [getPairing, if_neg (by decide : ¬ (MODES.MM = MODES.NORMAL)),
    if_pos rfl] at h
  simp only [] at h
  by_cases hlen : (malesOf (subgroupChars characters subgroup)).length < 2
  · rw [if_pos hlen] at h
    exact RunResult.noConfusion h
  · rw [if_neg hlen] at h
    have hm : 0 < (malesOf (subgroupChars characters subgroup)).length := by
      omega
    split at h
    · rename_i male2 hloop
      injection h with h
      subst h
      refine ⟨_, male2, rfl, rfl, by omega,
        redrawLoop_mem _ _ _ _ _ _ hm hloop, ?_⟩
      simpa using redrawLoop_not_reject _ _ _ _ _ _ hloop
    · exact RunResult.noConfusion h

theorem getPairing_ff_ret (characters : List Character) (ρ : Nat → Nat)
    (fuel : Nat) (subgroup : String) (p : Pairing)
    (h : getPairing characters ρ fuel subgroup MODES.FF = .ret p) :
    ∃ female1 female2,
      p = .ff female1 female2 ∧
      female1 = getRandomChar (femalesOf (subgroupChars characters subgroup)) (ρ 0) ∧
      2 ≤ (femalesOf (subgroupChars characters subgroup)).length ∧
      female2 ∈ femalesOf (subgroupChars characters subgroup) ∧
      (female2.image == female1.image ||
        ((subgroup == "all" || subgroup == "game") &&
          female2.characterId == female1.characterId)) = false := by
  rw [getPairing, if_neg (by decide : ¬ (MODES.FF = MODES.NORMAL)),
    if_neg (by decide : ¬ (MODES.FF = MODES.MM)), if_pos rfl] at h
  simp only [] at h
  by_cases hlen : (femalesOf (subgroupChars characters subgroup)).length < 2
  · rw [if_pos hlen] at h
    exact RunResult.noConfusion h
  · rw [if_neg hlen] at h
    have hf : 0 < (femalesOf (subgroupChars characters subgroup)).length := by
      omega
    split at h
    · rename_i female2 hloop
      injection h with h
      subst h
      refine ⟨_, female2, rfl, rfl, by omega,
        redrawLoop_mem _ _ _ _ _ _ hf hloop, ?_⟩
      simpa using redrawLoop_not_reject _ _ _ _ _ _ hloop
    · exact RunResult.noConfusion h

theorem getPairing_other_mode_null (characters : List Character)
    (ρ : Nat → Nat) (fuel : Nat) (subgroup mode : String)
    (h1 : mode ≠ MODES.NORMAL) (h2 : mode ≠ MODES.MM) (h3 : mode ≠ MODES.FF) :
    getPairing characters ρ fuel subgroup mode = .null := by
  rw [getPairing, if_neg h1, if_neg h2, if_neg h3]

theorem mem_subgroupChars (characters : List Character) (subgroup : String)
    (c : Character) (h : c ∈ subgroupChars characters subgroup) :
    (subgroup ≠ "all" → subgroup ∈ c.tags) ∧
    (subgroup = "all" → c ∈ characters) := by
  rw [subgroupChars] at h
  by_cases hs : subgroup = "all"
  · rw [if_pos hs] at h
    exact ⟨fun hne => absurd hs hne, fun _ => h⟩
  · rw [if_neg hs] at h
    rw [getCharsByTag, List.mem_filter] at h
    exact ⟨fun _ => by simpa using h.2, fun heq => absurd heq hs⟩

/-- Concrete male record used to exercise the theorems. -/
def charA : Character :=
  { characterId := 1, image := "edgeworth1", name := "Edgeworth",
    gender := "male", tags := ["aai1", "game"] }

/-- Concrete female record used to exercise the theorems. -/
def charB : Character :=
  { characterId := 2, image := "franziska1", name := "Franziska",
    gender := "female", tags := ["aai1", "game"] }

/-- Concrete two-character roster used to exercise the theorems. -/
def rosterAB : List Character := [charA, charB]

/-- C1: for subgroup "all" or "game", whenever getPairing returns a
pairing, in any of the three modes, its two characters have distinct
characterId values. -/
theorem getPairing_all_game_distinct_characterId (characters : List Character)
    (ρ : Nat → Nat) (fuel : Nat) (subgroup mode : String) (p : Pairing)
    (hsub : subgroup = "all" ∨ subgroup = "game")
    (h : getPairing characters ρ fuel subgroup mode = .ret p) :
    pairCharacterIdsDistinct p := by
  have hsubBeq : (subgroup == "all" || subgroup == "game") = true := by
    rcases hsub with hs | hs <;> simp [hs]
  by_cases h1 : mode = MODES.NORMAL
  · subst h1
    obtain ⟨male, female, hp, _, _, _, _, hid⟩ :=
      getPairing_normal_ret characters ρ fuel subgroup p h
    subst hp
    have hne : female.characterId ≠ male.characterId := by
      simpa using hid hsub
    exact fun heq => hne heq.symm
  · by_cases h2 : mode = MODES.MM
    · subst h2
      obtain ⟨male1, male2, hp, _, _, _, hrej⟩ :=
        getPairing_mm_ret characters ρ fuel subgroup p h
      subst hp
      rw [hsubBeq] at hrej
      simp only [Bool.true_and, Bool.or_eq_false_iff] at hrej
      have hne : male2.characterId ≠ male1.characterId := by
        simpa using hrej.2
      exact fun heq => hne heq.symm
    · by_cases h3 : mode = MODES.FF
      · subst h3
        obtain ⟨female1, female2, hp, _, _, _, hrej⟩ :=
          getPairing_ff_ret characters ρ fuel subgroup p h
        subst hp
        rw [hsubBeq] at hrej
        simp only [Bool.true_and, Bool.or_eq_false_iff] at hrej
        have hne : female2.characterId ≠ female1.characterId := by
          simpa using hrej.2
        exact fun heq => hne heq.symm
      · have hnull := getPairing_other_mode_null characters ρ fuel subgroup
          mode h1 h2 h3
        rw [h] at hnull
        exact RunResult.noConfusion hnull

/-- C1 witness: a run on the concrete roster with subgroup "all" that
returns Edgeworth and Franziska, whose characterId values 1 and 2 differ. -/
theorem getPairing_all_game_distinct_characterId_witness :
    getPairing rosterAB (fun _ => 0) 1 "all" MODES.NORMAL =
      .ret (.hetero charA charB) ∧
    pairCharacterIdsDistinct (.hetero charA charB) :=
  ⟨by decide,
   getPairing_all_game_distinct_characterId rosterAB (fun _ => 0) 1 "all"
     MODES.NORMAL (.hetero charA charB) (Or.inl rfl) (by decide)⟩

/-- C2: in male-male and female-female modes, for every roster, subgroup,
stream and fuel, a returned pairing has two characters with distinct image
values. -/
theorem getPairing_homo_distinct_image (characters : List Character)
    (ρ : Nat → Nat) (fuel : Nat) (subgroup mode : String) (p : Pairing)
    (hmode : mode = MODES.MM ∨ mode = MODES.FF)
    (h : getPairing characters ρ fuel subgroup mode = .ret p) :
    pairImagesDistinct p := by
  rcases hmode with h1 | h1 <;> subst h1
  · obtain ⟨male1, male2, hp, _, _, _, hrej⟩ :=
      getPairing_mm_ret characters ρ fuel subgroup p h
    subst hp
    simp only [Bool.or_eq_false_iff] at hrej
    have hne : male2.image ≠ male1.image := by
      simpa using hrej.1
    exact fun heq => hne heq.symm
  · obtain ⟨female1, female2, hp, _, _, _, hrej⟩ :=
      getPairing_ff_ret characters ρ fuel subgroup p h
    subst hp
    simp only [Bool.or_eq_false_iff] at hrej
    have hne : female2.image ≠ female1.image := by
      simpa using hrej.1
    exact fun heq => hne heq.symm

/-- A second concrete male record used to exercise the theorems. -/
def charC : Character :=
  { characterId := 3, image := "gumshoe1", name := "Gumshoe",
    gender := "male", tags := ["aai1", "game"] }

/-- Concrete two-male roster used to exercise the theorems. -/
def rosterAC : List Character := [charA, charC]

/-- C2 witness: a male-male run on a roster with two males that returns
two characters with images edgeworth1 and gumshoe1, which differ. -/
theorem getPairing_homo_distinct_image_witness :
    getPairing rosterAC (fun n => n) 2 "aai1" MODES.MM =
      .ret (.mm charA charC) ∧
    pairImagesDistinct (.mm charA charC) :=
  ⟨by decide,
   getPairing_homo_distinct_image rosterAC (fun n => n) 2 "aai1" MODES.MM
     (.mm charA charC) (Or.inl rfl) (by decide)⟩

/-- C3: in opposite-gender mode on a candidate set containing at least one
male and at least one female, any returned pairing is a hetero pairing
whose male slot has gender male and whose female slot has gender female. -/
theorem getPairing_normal_genders (characters : List Character)
    (ρ : Nat → Nat) (fuel : Nat) (subgroup : String) (p : Pairing)
    (_hmale : ∃ c ∈ subgroupChars characters subgroup, c.gender = "male")
    (_hfemale : ∃ c ∈ subgroupChars characters subgroup, c.gender = "female")
    (h : getPairing characters ρ fuel subgroup MODES.NORMAL = .ret p) :
    ∃ male female, p = .hetero male female ∧
      male.gender = "male" ∧ female.gender = "female" := by
  obtain ⟨male, female, hp, hmaleEq, hm, _, hfmem, _⟩ :=
    getPairing_normal_ret characters ρ fuel subgroup p h
  refine ⟨male, female, hp, ?_, (mem_femalesOf _ _ hfmem).2⟩
  subst hmaleEq
  exact (mem_malesOf _ _ (getRandomChar_mem _ _ hm)).2

/-- C3 witness: the concrete roster has a male and a female under
subgroup "all", and the returned pairing is Edgeworth (male slot) and
Franziska (female slot) with the right genders. -/
theorem getPairing_normal_genders_witness :
    ∃ male female,
      Pairing.hetero charA charB = .hetero male female ∧
      male.gender = "male" ∧ female.gender = "female" :=
  getPairing_normal_genders rosterAB (fun _ => 0) 1 "all"
    (.hetero charA charB) (by decide) (by decide) (by decide)

/-- C5: with zero males in the candidate set, opposite-gender and
male-male selection both return null and nothing else; male-male returns
null already whenever fewer than two males are present. -/
theorem getPairing_insufficient_males_null (characters : List Character)
    (ρ : Nat → Nat) (fuel : Nat) (subgroup : String) :
    ((malesOf (subgroupChars characters subgroup)).length = 0 →
      getPairing characters ρ fuel subgroup MODES.NORMAL = .null ∧
      getPairing characters ρ fuel subgroup MODES.MM = .null) ∧
    ((malesOf (subgroupChars characters subgroup)).length < 2 →
      getPairing characters ρ fuel subgroup MODES.MM = .null) := by
  have hmm : ∀ hlt : (malesOf (subgroupChars characters subgroup)).length < 2,
      getPairing characters ρ fuel subgroup MODES.MM = .null := by
    intro hlt
    rw [getPairing, if_neg (by decide : ¬ (MODES.MM = MODES.NORMAL)),
      if_pos rfl]
    simp only []
    rw [if_pos hlt]
  refine ⟨fun h0 => ⟨?_, hmm (by omega)⟩, hmm⟩
  rw [getPairing, if_pos rfl]
  simp only []
  rw [if_pos (Or.inl h0)]

/-- C5 witness: a roster holding only Maya has no males under subgroup
pw1, and both opposite-gender and male-male selection return null there;
male-male also returns null with the single male under subgroup game. -/
theorem getPairing_insufficient_males_null_witness :
    (getPairing [maya] (fun _ => 0) 1 "pw1" MODES.NORMAL = .null ∧
     getPairing [maya] (fun _ => 0) 1 "pw1" MODES.MM = .null) ∧
    getPairing rosterAB (fun _ => 0) 1 "game" MODES.MM = .null :=
  ⟨(getPairing_insufficient_males_null [maya] (fun _ => 0) 1 "pw1").1
      (by decide),
   (getPairing_insufficient_males_null rosterAB (fun _ => 0) 1 "game").2
      (by decide)⟩

/-- C6: a mode string that is none of hetero, homo-male and homo-female
yields the null result for every roster, stream, fuel and subgroup; the
selector is a total function, so no exception reaches the caller. -/
theorem getPairing_invalid_mode_null (characters : List Character)
    (ρ : Nat → Nat) (fuel : Nat) (subgroup mode : String)
    (h1 : mode ≠ MODES.NORMAL) (h2 : mode ≠ MODES.MM) (h3 : mode ≠ MODES.FF) :
    getPairing characters ρ fuel subgroup mode = .null :=
  getPairing_other_mode_null characters ρ fuel subgroup mode h1 h2 h3

/-- C6 witness: the unrecognized mode string romance returns null on the
concrete roster. -/
theorem getPairing_invalid_mode_null_witness :
    getPairing rosterAB (fun _ => 0) 1 "all" "romance" = .null :=
  getPairing_invalid_mode_null rosterAB (fun _ => 0) 1 "all" "romance"
    (by decide) (by decide) (by decide)

/-- C9: every character of a returned pairing belongs to the requested
candidate set: for a subgroup other than the literal "all" its tag set
contains the subgroup, and for subgroup "all" it is a member of the
roster. -/
theorem getPairing_members_in_candidates (characters : List Character)
    (ρ : Nat → Nat) (fuel : Nat) (subgroup mode : String) (p : Pairing)
    (h : getPairing characters ρ fuel subgroup mode = .ret p) :
    ∀ c ∈ pairMembers p,
      (subgroup ≠ "all" → subgroup ∈ c.tags) ∧
      (subgroup = "all" → c ∈ characters) := by
  by_cases h1 : mode = MODES.NORMAL
  · subst h1
    obtain ⟨male, female, hp, hmaleEq, hm, _, hfmem, _⟩ :=
      getPairing_normal_ret characters ρ fuel subgroup p h
    subst hp
    intro c hc
    simp only [pairMembers, List.mem_cons, List.not_mem_nil, or_false] at hc
    refine mem_subgroupChars characters subgroup c ?_
    rcases hc with rfl | rfl
    · subst hmaleEq
      exact (mem_malesOf _ _ (getRandomChar_mem _ _ hm)).1
    · exact (mem_femalesOf _ _ hfmem).1
  · by_cases h2 : mode = MODES.MM
    · subst h2
      obtain ⟨male1, male2, hp, hmaleEq, hlen, hmem2, _⟩ :=
        getPairing_mm_ret characters ρ fuel subgroup p h
      subst hp
      intro c hc
      simp only [pairMembers, List.mem_cons, List.not_mem_nil, or_false] at hc
      refine mem_subgroupChars characters subgroup c ?_
      rcases hc with rfl | rfl
      · subst hmaleEq
        exact (mem_malesOf _ _ (getRandomChar_mem _ _ (by omega))).1
      · exact (mem_malesOf _ _ hmem2).1
    · by_cases h3 : mode = MODES.FF
      · subst h3
        obtain ⟨female1, female2, hp, hfemaleEq, hlen, hmem2, _⟩ :=
          getPairing_ff_ret characters ρ fuel subgroup p h
        subst hp
        intro c hc
        simp only [pairMembers, List.mem_cons, List.not_mem_nil, or_false] at hc
        refine mem_subgroupChars characters subgroup c ?_
        rcases hc with rfl | rfl
        · subst hfemaleEq
          exact (mem_femalesOf _ _ (getRandomChar_mem _ _ (by omega))).1
        · exact (mem_femalesOf _ _ hmem2).1
      · have hnull := getPairing_other_mode_null characters ρ fuel subgroup
          mode h1 h2 h3
        rw [h] at hnull
        exact RunResult.noConfusion hnull

/-- C9 witness: a run with subgroup aai1 returns Edgeworth and Gumshoe,
and both carry the tag aai1 (the subgroup is not "all", so only the tag
clause applies). -/
theorem getPairing_members_in_candidates_witness :
    ("aai1" ≠ "all" → "aai1" ∈ charA.tags) ∧
    ("aai1" = "all" → charA ∈ rosterAC) :=
  getPairing_members_in_candidates rosterAC (fun n => n) 2 "aai1" MODES.MM
    (.mm charA charC) (by decide) charA (by decide)

/-- C7: in opposite-gender mode with subgroup "all" or "game", for a fair
random stream over the female partition, the selector returns a pairing at
some fuel precisely when some female in the candidate set has a
characterId different from the drawn male's; and when every female shares
the male's characterId the redraw loop never exits, observed as the
timeout result at every fuel. -/
theorem getPairing_normal_loop_termination_iff (characters : List Character)
    (ρ : Nat → Nat) (subgroup : String)
    (hsub : subgroup = "all" ∨ subgroup = "game")
    (hm : 0 < (malesOf (subgroupChars characters subgroup)).length)
    (hf : 0 < (femalesOf (subgroupChars characters subgroup)).length)
    (hfair : Fair ρ (femalesOf (subgroupChars characters subgroup)).length) :
    ((∃ fuel p, getPairing characters ρ fuel subgroup MODES.NORMAL = .ret p) ↔
      (∃ f ∈ femalesOf (subgroupChars characters subgroup),
        f.characterId ≠
          (getRandomChar (malesOf (subgroupChars characters subgroup))
            (ρ 0)).characterId)) ∧
    ((∀ f ∈ femalesOf (subgroupChars characters subgroup),
        f.characterId =
          (getRandomChar (malesOf (subgroupChars characters subgroup))
            (ρ 0)).characterId) →
      ∀ fuel, getPairing characters ρ fuel subgroup MODES.NORMAL = .timeout) := by
  have hlen : ¬ ((malesOf (subgroupChars characters subgroup)).length = 0 ∨
      (femalesOf (subgroupChars characters subgroup)).length = 0) := by
    omega
  constructor
  · constructor
    · rintro ⟨fuel, p, hp⟩
      obtain ⟨male, female, _, hmaleEq, _, _, hfmem, hid⟩ :=
        getPairing_normal_ret characters ρ fuel subgroup p hp
      refine ⟨female, hfmem, ?_⟩
      rw [← hmaleEq]
      exact ne_of_beq_false (hid hsub)
    · rintro ⟨f, hfmem, hfne⟩
      obtain ⟨i, hi, hif⟩ := List.getElem_of_mem hfmem
      obtain ⟨k, hk1, hkmod⟩ := hfair i hi 1
      have hgood : (fun female => female.characterId ==
          (getRandomChar (malesOf (subgroupChars characters subgroup))
            (ρ 0)).characterId)
          (getRandomChar (femalesOf (subgroupChars characters subgroup))
            (ρ (1 + (k - 1)))) = false := by
        have hk : 1 + (k - 1) = k := by omega
        rw [hk, getRandomChar_eq_getElem _ _ hf, List.get_eq_getElem]
        simp only [hkmod, hif]
        exact beq_false_of_ne hfne
      obtain ⟨fuel, c, hc⟩ :=
        redrawLoop_some_of_good (femalesOf (subgroupChars characters subgroup))
          (fun female => female.characterId ==
            (getRandomChar (malesOf (subgroupChars characters subgroup))
              (ρ 0)).characterId) ρ (k - 1) 1 hgood
      refine ⟨fuel, .hetero (getRandomChar
        (malesOf (subgroupChars characters subgroup)) (ρ 0)) c, ?_⟩
      rw [getPairing, if_pos rfl]
      simp only []
      rw [if_neg hlen, if_pos hsub, hc]
  · intro hall fuel
    rw [getPairing, if_pos rfl]
    simp only []
    rw [if_neg hlen, if_pos hsub]
    rw [redrawLoop_none_of_all_reject _ _ ρ
      (fun x hx => by simp [hall x hx]) hf fuel 1]

/-- C7 witness: on the concrete roster with subgroup "all" and the
constant-zero stream (fair for the single-female partition), the iff and
the timeout implication hold. -/
theorem getPairing_normal_loop_termination_iff_witness :
    ((∃ fuel p, getPairing rosterAB (fun _ => 0) fuel "all" MODES.NORMAL =
        .ret p) ↔
      (∃ f ∈ femalesOf (subgroupChars rosterAB "all"),
        f.characterId ≠
          (getRandomChar (malesOf (subgroupChars rosterAB "all"))
            ((fun _ => 0) 0)).characterId)) ∧
    ((∀ f ∈ femalesOf (subgroupChars rosterAB "all"),
        f.characterId =
          (getRandomChar (malesOf (subgroupChars rosterAB "all"))
            ((fun _ => 0) 0)).characterId) →
      ∀ fuel, getPairing rosterAB (fun _ => 0) fuel "all" MODES.NORMAL =
        .timeout) :=
  getPairing_normal_loop_termination_iff rosterAB (fun _ => 0) "all"
    (Or.inl rfl) (by decide) (by decide)
    (by
      intro i hi N
      have hl : (femalesOf (subgroupChars rosterAB "all")).length = 1 := by
        decide
      rw [hl] at hi
      refine ⟨N, le_rfl, ?_⟩
      rw [hl]
      show 0 % 1 = i
      omega)

/-- A male record whose characterId is shared by two depictions, tagged
dual. -/
def charD : Character :=
  { characterId := 7, image := "phoenix_old", name := "Phoenix (older)",
    gender := "male", tags := ["dual"] }

/-- A second depiction of the same underlying character as charD. -/
def charE : Character :=
  { characterId := 7, image := "phoenix_young", name := "Phoenix (younger)",
    gender := "male", tags := ["dual"] }

/-- A female record sharing charD's characterId, tagged dual. -/
def charF : Character :=
  { characterId := 7, image := "iris1", name := "Iris",
    gender := "female", tags := ["dual"] }

/-- Roster exercising a subgroup that is neither "all" nor "game". -/
def rosterDEF : List Character := [charD, charE, charF]

/-- C10: outside the "all" and "game" subgroups the characterId rule is
not enforced: on a concrete roster under the subgroup dual, male-male
returns two characters with distinct images but equal characterId, and
opposite-gender returns a male and a female sharing characterId. -/
theorem getPairing_no_characterId_rule_other_subgroups :
    getPairing rosterDEF (fun n => n) 1 "dual" MODES.MM =
      .ret (.mm charD charE) ∧
    charD.image ≠ charE.image ∧
    charD.characterId = charE.characterId ∧
    getPairing rosterDEF (fun _ => 0) 1 "dual" MODES.NORMAL =
      .ret (.hetero charD charF) ∧
    charD.gender = "male" ∧
    charF.gender = "female" ∧
    charD.characterId = charF.characterId :=
  ⟨by decide, by decide, rfl, by decide, rfl, rfl, rfl⟩
